import Mathlib

/-!
Shallow embedding of the deterministic synthetic market-data and caching
subsystem of the finapp-ai repository (src/lib/stocks.ts and the earnings
module), together with proofs about the claims of its specification.

Modelling conventions:
* JavaScript numbers are modelled as exact rationals (ℚ); 32-bit integer
  operations (`>>> 0`, `Math.imul`, `^`, `|`, `>>>`) are modelled on ℕ with
  explicit `% 2^32`.
* `Number(x.toFixed(2))` and `Math.round` round half away from negative
  infinity, which coincides with Mathlib's `round` on ℚ; `toFixed(2)` is
  `round (100 * x) / 100`.
* `Date.now()` timestamps are `ℤ` (epoch milliseconds).  Calendar dates
  (the ECMAScript `Date` year/month/day view used via `getMonth`,
  `setMonth`, `toISOString().slice(0, 10)`) are modelled by the `DateOnly`
  structure, with JavaScript's 0-based month index.
* The process-wide `Map` cache is modelled as an association list in
  insertion order (exactly the iteration order of a JS `Map`), threaded
  explicitly through the operations; `throw` is modelled by `Except`.
-/

namespace FinApp

/-- `2^32`, the modulus of all JavaScript 32-bit integer coercions. -/
def U32 : ℕ := 4294967296

/-- `Math.imul(a, b)` viewed as an unsigned 32-bit word: the product mod `2^32`
(the signed/unsigned distinction is invisible modulo `2^32`). -/
def imul (a b : ℕ) : ℕ := (a * b) % U32

/-- UTF-16 code units of a character, as produced by JavaScript
`String.prototype.charCodeAt` (surrogate pair for code points above the BMP). -/
def utf16Units (c : Char) : List ℕ :=
  if c.toNat < 65536 then [c.toNat]
  else [55296 + (c.toNat - 65536) / 1024, 56320 + (c.toNat - 65536) % 1024]

/-- `hashStringToInt` from stocks.ts (FNV-1a over UTF-16 code units):
`h = 2166136261; for each unit: h ^= unit; h = imul(h, 16777619) >>> 0`. -/
def hashStringToInt (s : String) : ℕ :=
  (s.data.flatMap utf16Units).foldl (fun h c => imul (h ^^^ c) 16777619) 2166136261

/-- One step of the `mulberry32` generator from stocks.ts: given the current
state `t` (a 32-bit word), returns the next state and the drawn value in
`[0, 1)`.  All bitwise operations act modulo `2^32`. -/
def mulberry32Next (t : ℕ) : ℕ × ℚ :=
  let t' := (t + 1831565813) % U32
  let r1 := imul (t' ^^^ (t' >>> 15)) (t' ||| 1)
  let r2 := r1 ^^^ ((r1 + imul (r1 ^^^ (r1 >>> 7)) (r1 ||| 61)) % U32)
  let out := (r2 ^^^ (r2 >>> 14)) % U32
  (t', (out : ℚ) / 4294967296)

/-- `Number(x.toFixed(2))` on an exact rational: round `100 * x` to the nearest
integer (ties away from negative infinity, as ECMAScript `toFixed` specifies)
and divide back by 100. -/
def round2 (x : ℚ) : ℚ := (round (100 * x) : ℚ) / 100

/-- `Math.round` (round half toward positive infinity, as Mathlib `round`). -/
def jsRound (x : ℚ) : ℤ := round x

/-- `Math.floor`. -/
def jsFloor (x : ℚ) : ℤ := ⌊x⌋

-- ----------------------------------------------------------------------------
-- Data model (stocks.ts interfaces)

/-- The `Quote` interface of stocks.ts. -/
structure Quote where
  symbol : String
  name : String
  price : ℚ
  change : ℚ
  changePercent : ℚ
  currency : String
  marketCap : Option ℤ
  peRatio : Option ℚ
  epsTTM : Option ℚ
  dividendYield : Option ℚ
  week52High : Option ℚ
  week52Low : Option ℚ
  lastUpdated : ℤ
deriving DecidableEq, Repr

/-- The `Candle` interface of stocks.ts (`t` epoch ms, OHLC, optional volume). -/
structure Candle where
  t : ℤ
  o : ℚ
  h : ℚ
  l : ℚ
  c : ℚ
  v : Option ℤ
deriving DecidableEq, Repr

/-- A calendar date as seen through the ECMAScript `Date` accessors:
`year`, 0-based `month0` (`getMonth()`), 1-based `day` (`getDate()`).
The source emits dates as `toISOString().slice(0, 10)`; we keep the
structured form, which carries the same information. -/
structure DateOnly where
  year : ℤ
  month0 : ℤ
  day : ℤ
deriving DecidableEq, Repr

/-- The `EarningsQuarter` interface of stocks.ts (the `date` field is the
ISO day, kept structured here). -/
structure EarningsQuarter where
  fiscalPeriod : String
  date : Option DateOnly
  epsEstimate : Option ℚ
  epsActual : Option ℚ
deriving DecidableEq, Repr

/-- The `NewsItem` interface of stocks.ts.  The source formats `publishedAt`
as an ISO datetime string; we keep the underlying epoch-millisecond value
from which that string is produced. -/
structure NewsItem where
  id : String
  source : String
  headline : String
  url : String
  publishedAt : ℤ
  summary : Option String
deriving DecidableEq, Repr

/-- The `StockOverview` interface of stocks.ts. -/
structure StockOverview where
  quote : Quote
  history : List Candle
  earnings : List EarningsQuarter
  news : List NewsItem
deriving DecidableEq, Repr

-- ----------------------------------------------------------------------------
-- The in-memory cache (stocks.ts lines 62-85)

/-- The values stored in the process-wide cache map (`value: any` in the
source; the four kinds of data actually stored under the four key prefixes). -/
inductive CacheValue where
  | quote (q : Quote)
  | hist (h : List Candle)
  | earn (e : List EarningsQuarter)
  | news (n : List NewsItem)
deriving DecidableEq, Repr

/-- One cache entry: insertion timestamp and stored value. -/
structure CacheEntry where
  ts : ℤ
  value : CacheValue
deriving DecidableEq, Repr

/-- The `CACHE` map, as an association list in insertion order (the iteration
order of a JavaScript `Map`). -/
abbrev Cache := List (String × CacheEntry)

/-- `Map.prototype.get`. -/
def mapGet : Cache → String → Option CacheEntry
  | [], _ => none
  | (k', e) :: rest, k => if k' = k then some e else mapGet rest k

/-- `Map.prototype.set`: replace in place if the key is present (keeping its
position in iteration order), otherwise append. -/
def mapSet : Cache → String → CacheEntry → Cache
  | [], k, e => [(k, e)]
  | (k', e') :: rest, k, e =>
    if k' = k then (k, e) :: rest else (k', e') :: mapSet rest k e

/-- `Map.prototype.delete`: remove the entry with the given key. -/
def mapDelete : Cache → String → Cache
  | [], _ => []
  | (k', e') :: rest, k => if k' = k then rest else (k', e') :: mapDelete rest k

/-- `MAX_CACHE = 200`. -/
def MAX_CACHE : ℕ := 200

/-- `CACHE_TTL = 1000 * 60 * 5` (five minutes, in milliseconds). -/
def CACHE_TTL : ℤ := 1000 * 60 * 5

/-- `getCache` from stocks.ts: a lookup that treats entries older than the TTL
as absent and deletes them; returns the possibly-updated cache. -/
def getCache (now : ℤ) (key : String) (c : Cache) : Option CacheValue × Cache :=
  match mapGet c key with
  | none => (none, c)
  | some e => if now - e.ts > CACHE_TTL then (none, mapDelete c key) else (some e.value, c)

/-- `setCache` from stocks.ts: when the map size exceeds `MAX_CACHE`, take the
first key in iteration order and — guarded by the source's `if (firstKey)`
truthiness check, which is falsy for `undefined` (empty map) and for the
empty string — delete it; then insert the new entry. -/
def setCache (now : ℤ) (key : String) (value : CacheValue) (c : Cache) : Cache :=
  let c1 :=
    if MAX_CACHE < c.length then
      match c with
      | [] => c
      | (firstKey, _) :: _ => if firstKey = "" then c else mapDelete c firstKey
    else c
  mapSet c1 key ⟨now, value⟩

-- ----------------------------------------------------------------------------
-- Symbol sanitation and ranges

/-- Membership in the character class of the regex `^[A-Z0-9.\-]+$`, by code
point: `A`-`Z` (65-90), `0`-`9` (48-57), `.` (46), `-` (45). -/
def validSymChar (c : Char) : Bool :=
  (65 ≤ c.toNat && c.toNat ≤ 90) || (48 ≤ c.toNat && c.toNat ≤ 57) ||
    c.toNat == 46 || c.toNat == 45

/-- Whether a string is pure ASCII (every code point below 128). -/
def isAsciiString (s : String) : Bool := s.data.all (fun c => c.toNat < 128)

/-- `String.prototype.toUpperCase`, modelled as a per-character map
(`Char.toUpper`, structural so that it reduces).  This is exact on ASCII
strings, where the Unicode full case mapping uppercases each character to its
single ASCII uppercase; outside ASCII the real `toUpperCase` can differ
(e.g. `"ß"` → `"SS"`, `"ı"` → `"I"`), so theorems about rejection of
malformed symbols are stated for ASCII inputs only. -/
def jsToUpper (s : String) : String := String.mk (s.data.map Char.toUpper)

/-- `sanitizeSymbol` from stocks.ts: reject an empty symbol, uppercase, then
reject anything not matching `^[A-Z0-9.\-]+$`. -/
def sanitizeSymbol (raw : String) : Except String String :=
  if raw = "" then .error "Missing symbol"
  else if (jsToUpper raw).data.all validSymChar then .ok (jsToUpper raw)
  else .error "Invalid symbol"

/-- The `PriceRange` union type of stocks.ts. -/
inductive PriceRange where
  | oneD | fiveD | oneM | threeM | sixM | oneY | twoY | fiveY
deriving DecidableEq, Repr

/-- The string value of a `PriceRange` (used in template literals and keys). -/
def rangeKey : PriceRange → String
  | .oneD => "1D" | .fiveD => "5D" | .oneM => "1M" | .threeM => "3M"
  | .sixM => "6M" | .oneY => "1Y" | .twoY => "2Y" | .fiveY => "5Y"

/-- `rangeToMinutes` from stocks.ts.  The switch lists 1D, 5D, 1M, 6M, 1Y and
5Y explicitly; `'3M'` and `'2Y'` fall through to the default daily resolution. -/
def rangeToMinutes : PriceRange → ℕ
  | .oneD => 5
  | .fiveD => 15
  | .oneM => 60 * 24
  | .sixM => 60 * 24
  | .oneY => 60 * 24
  | .fiveY => 60 * 24 * 7
  | .threeM => 60 * 24
  | .twoY => 60 * 24

/-- The wall-clock duration (ms) of each range, from the switch inside
`generateMockHistory`. -/
def durationMs : PriceRange → ℕ
  | .oneD => 24 * 60 * 60 * 1000
  | .fiveD => 5 * 24 * 60 * 60 * 1000
  | .oneM => 30 * 24 * 60 * 60 * 1000
  | .threeM => 90 * 24 * 60 * 60 * 1000
  | .sixM => 180 * 24 * 60 * 60 * 1000
  | .oneY => 365 * 24 * 60 * 60 * 1000
  | .twoY => 2 * 365 * 24 * 60 * 60 * 1000
  | .fiveY => 5 * 365 * 24 * 60 * 60 * 1000

/-- The `BASE_PRICE` record of stocks.ts. -/
def basePriceTable : String → Option ℚ
  | "AAPL" => some 175
  | "MSFT" => some 420
  | "AMZN" => some 165
  | "TSLA" => some 260
  | "GOOGL" => some 150
  | "NVDA" => some 1100
  | _ => none

-- ----------------------------------------------------------------------------
-- Mock generators

/-- `generateMockQuote` from stocks.ts, with the PRNG state threaded through
the draws in source order (`??` does not draw when the symbol is in the base
table; the dividend-yield value draw happens only when its chance draw
exceeds 0.7). -/
def generateMockQuote (symbol : String) (now : ℤ) : Quote :=
  let t0 := hashStringToInt (symbol ++ "|quote")
  let (base, t1) :=
    match basePriceTable symbol with
    | some b => (b, t0)
    | none =>
      let (t, r) := mulberry32Next t0
      ((jsRound (50 + r * 500) : ℚ), t)
  let (t2, rDrift) := mulberry32Next t1
  let drift := (rDrift - 1/2) * (2/100)
  let price := round2 (base * (1 + drift))
  let (t3, rChange) := mulberry32Next t2
  let change := round2 ((rChange - 1/2) * 5)
  let changePercent := round2 ((change / max 1 (price - change)) * 100)
  let (t4, rCap) := mulberry32Next t3
  let marketCap := jsRound (price * (10000000 + rCap * 1000000000))
  let (t5, rPe) := mulberry32Next t4
  let peRatio := round2 (10 + rPe * 35)
  let (t6, rEps) := mulberry32Next t5
  let epsTTM := round2 (rEps * 10)
  let (t7, rDivChance) := mulberry32Next t6
  let (dividendYield, t8) :=
    if rDivChance > 7/10 then
      let (t, rDiv) := mulberry32Next t7
      (some (round2 (rDiv * 5)), t)
    else (none, t7)
  let (t9, rHi) := mulberry32Next t8
  let week52High := round2 (price * (1 + rHi * (3/10)))
  let (_, rLo) := mulberry32Next t9
  let week52Low := round2 (price * (1 - rLo * (3/10)))
  { symbol := symbol
    name := symbol ++ " Corporation"
    price := price
    change := change
    changePercent := changePercent
    currency := "USD"
    marketCap := some marketCap
    peRatio := some peRatio
    epsTTM := some epsTTM
    dividendYield := dividendYield
    week52High := some week52High
    week52Low := some week52Low
    lastUpdated := now }

/-- One iteration of the candle loop in `generateMockHistory`: given the PRNG
state, the walking price and the candle timestamp, produce the candle, the
next price (the close) and the next PRNG state. -/
def mkCandle (t0 : ℕ) (price : ℚ) (tstamp : ℤ) : Candle × ℚ × ℕ :=
  let p1 := mulberry32Next t0
  let o := round2 (price * (1 + (p1.2 - 1/2) * (2/1000)))
  let p2 := mulberry32Next p1.1
  let c := round2 (o * (1 + (p2.2 - 1/2) * (1/100)))
  let p3 := mulberry32Next p2.1
  let h := max o c * (1 + p3.2 * (2/1000))
  let p4 := mulberry32Next p3.1
  let l := min o c * (1 - p4.2 * (2/1000))
  let p5 := mulberry32Next p4.1
  let v := jsRound (1000 + p5.2 * 1000000)
  (⟨tstamp, o, round2 h, round2 l, c, some v⟩, c, p5.1)

/-- The candle loop `for (let i = points; i >= 0; i--)` of
`generateMockHistory`: the first argument is the loop variable `i`, counting
down to 0 inclusive; candle `i` is stamped `now - i * step`. -/
def genCandlesAux (now step : ℤ) : ℕ → ℕ → ℚ → List Candle
  | 0, t, price => [(mkCandle t price now).1]
  | i + 1, t, price =>
    let res := mkCandle t price (now - ((i : ℤ) + 1) * step)
    res.1 :: genCandlesAux now step i res.2.2 res.2.1

/-- `generateMockHistory` from stocks.ts: seeded by `symbol + '|' + range`,
`points = max(10, ceil(durationMs / step))` candles plus the `i = 0` one. -/
def generateMockHistory (symbol : String) (range : PriceRange) (now : ℤ) : List Candle :=
  let t0 := hashStringToInt (symbol ++ "|" ++ rangeKey range)
  let minutes := rangeToMinutes range
  let dur := durationMs range
  let step := minutes * 60 * 1000
  let points := max 10 ((dur + step - 1) / step)
  let p1 := mulberry32Next t0
  let price := (basePriceTable symbol).getD 100 * (1 + (p1.2 - 1/2) * (2/100))
  genCandlesAux now (step : ℤ) points p1.1 price

-- ----------------------------------------------------------------------------
-- Calendar dates (ECMAScript Date year/month/day arithmetic)

/-- Gregorian leap year. -/
def isLeapYear (y : ℤ) : Bool :=
  (y % 4 == 0 && y % 100 != 0) || y % 400 == 0

/-- Days in the month with JavaScript 0-based index `m0` (assumed in `[0, 11]`). -/
def daysInMonth (y m0 : ℤ) : ℤ :=
  if m0 = 1 then (if isLeapYear y then 29 else 28)
  else if m0 = 3 ∨ m0 = 5 ∨ m0 = 8 ∨ m0 = 10 then 30
  else 31

/-- ECMAScript `Date.prototype.setMonth` normalization (MakeDay): move to
month index `newM` of the date's year (with floor-division year carry), then
roll an out-of-range day-of-month forward into the following month.  For
day-of-month ≤ 31 a single roll suffices, since every month has ≥ 28 days. -/
def setMonthNorm (dt : DateOnly) (newM : ℤ) : DateOnly :=
  let T := dt.year * 12 + newM
  let y' := T / 12
  let m' := T % 12
  if dt.day ≤ daysInMonth y' m' then ⟨y', m', dt.day⟩
  else ⟨(T + 1) / 12, (T + 1) % 12, dt.day - daysInMonth y' m'⟩

/-- Chronological key of a calendar date: lexicographic in
(linearized month, day); for day-of-month in `[1, 31]` this orders dates
chronologically. -/
def dateKey (dt : DateOnly) : ℤ := (dt.year * 12 + dt.month0) * 32 + dt.day

/-- A structurally valid JavaScript date view: month index in `[0, 11]` and
day-of-month in `[1, 31]`. -/
def validDate (dt : DateOnly) : Prop :=
  0 ≤ dt.month0 ∧ dt.month0 < 12 ∧ 1 ≤ dt.day ∧ dt.day ≤ 31

instance (dt : DateOnly) : Decidable (validDate dt) := by
  unfold validDate; infer_instance

-- ----------------------------------------------------------------------------
-- Mock earnings and news

/-- The quarter loop of `generateMockEarnings` (generation order is
newest-first; quarter `i` steps back `3 * i` months from the current date).
First argument is the remaining iteration count, second the loop index `i`,
third the PRNG state. -/
def genEarnAux (nowD : DateOnly) : ℕ → ℕ → ℕ → List EarningsQuarter
  | 0, _, _ => []
  | n + 1, i, t =>
    let d := setMonthNorm nowD (nowD.month0 - 3 * (i : ℤ))
    let qnum := ⌈((d.month0 + 1 : ℤ) : ℚ) / 3⌉
    let p1 := mulberry32Next t
    let epsEst := round2 (p1.2 * 3)
    let p2 := mulberry32Next p1.1
    let epsAct := round2 (epsEst + (p2.2 - 1/2) * (1/2))
    { fiscalPeriod := "Q" ++ toString qnum ++ " " ++ toString d.year
      date := some d
      epsEstimate := some epsEst
      epsActual := some epsAct } :: genEarnAux nowD n (i + 1) p2.1

/-- `generateMockEarnings` from stocks.ts: 8 quarters generated newest-first,
then reversed to oldest-first. -/
def generateMockEarnings (symbol : String) (nowD : DateOnly) : List EarningsQuarter :=
  (genEarnAux nowD 8 0 (hashStringToInt (symbol ++ "|earn"))).reverse

/-- The source names drawn from in `generateMockNews`. -/
def newsSources : List String := ["Reuters", "Bloomberg", "WSJ", "CNBC", "MarketWatch"]

/-- The item loop of `generateMockNews`. -/
def genNewsAux (symbol : String) (now : ℤ) : ℕ → ℕ → ℕ → List NewsItem
  | 0, _, _ => []
  | n + 1, i, t =>
    let (t1, r1) := mulberry32Next t
    let publishedAt := now - (i : ℤ) * 3600 * 1000 * (1 + jsFloor (r1 * 48))
    let (t2, r2) := mulberry32Next t1
    let src := newsSources.getD (jsFloor (r2 * 5)).toNat ""
    { id := symbol ++ "-news-" ++ toString i
      source := src
      headline := symbol ++ " news headline " ++ toString (i + 1)
      url := "https://example.com/" ++ symbol ++ "/news/" ++ toString i
      publishedAt := publishedAt
      summary := some ("Summary for " ++ symbol ++ " news " ++ toString (i + 1)) }
      :: genNewsAux symbol now n (i + 1) t2

/-- `generateMockNews` from stocks.ts (default limit 5 is supplied by callers
in this embedding). -/
def generateMockNews (symbol : String) (limit : ℕ) (now : ℤ) : List NewsItem :=
  genNewsAux symbol now limit 0 (hashStringToInt (symbol ++ "|news"))

-- ----------------------------------------------------------------------------
-- Provider placeholder and the public API

/-- `fetchFromProvider` from stocks.ts: the provider placeholder that always
throws. -/
def fetchFromProvider (α : Type) (_symbol : String) (_range : Option PriceRange) :
    Except String α :=
  .error "Provider integration not implemented in this skeleton"

/-- `getQuote` from stocks.ts.  The `mock` flag stands for
`process.env.STOCK_DATA_MOCK === '1'`; the cache is threaded explicitly.
A cached value of another kind under this key cannot occur (key prefixes are
disjoint per data kind); it is treated as a miss, where the source's
unchecked cast would return it. -/
def getQuote (mock : Bool) (now : ℤ) (st : Cache) (symbolRaw : String) :
    Except String (Quote × Cache) :=
  match sanitizeSymbol symbolRaw with
  | .error e => .error e
  | .ok symbol =>
    let key := "quote:" ++ symbol
    let cached := getCache now key st
    let st1 := cached.2
    match cached.1 with
    | some (.quote q) => .ok (q, st1)
    | _ =>
      if mock then
        let q := generateMockQuote symbol now
        .ok (q, setCache now key (.quote q) st1)
      else
        match fetchFromProvider Quote symbol none with
        | .ok q => .ok (q, setCache now key (.quote q) st1)
        | .error _ =>
          -- fallback to mock for resilience
          let q := generateMockQuote symbol now
          .ok (q, setCache now key (.quote q) st1)

/-- `getPriceHistory` from stocks.ts. -/
def getPriceHistory (mock : Bool) (now : ℤ) (st : Cache) (symbolRaw : String)
    (range : PriceRange) : Except String (List Candle × Cache) :=
  match sanitizeSymbol symbolRaw with
  | .error e => .error e
  | .ok symbol =>
    let key := "hist:" ++ symbol ++ ":" ++ rangeKey range
    let cached := getCache now key st
    let st1 := cached.2
    match cached.1 with
    | some (.hist h) => .ok (h, st1)
    | _ =>
      if mock then
        let h := generateMockHistory symbol range now
        .ok (h, setCache now key (.hist h) st1)
      else
        match fetchFromProvider (List Candle) symbol (some range) with
        | .ok h => .ok (h, setCache now key (.hist h) st1)
        | .error _ =>
          let h := generateMockHistory symbol range now
          .ok (h, setCache now key (.hist h) st1)

/-- `getEarningsHistory` from stocks.ts.  Both the mock branch and the
non-mock branch (whose try block is itself the provider placeholder calling
the generator, with an identical catch) produce the mock earnings. -/
def getEarningsHistory (mock : Bool) (now : ℤ) (nowD : DateOnly) (st : Cache)
    (symbolRaw : String) : Except String (List EarningsQuarter × Cache) :=
  match sanitizeSymbol symbolRaw with
  | .error e => .error e
  | .ok symbol =>
    let key := "earn:" ++ symbol
    let cached := getCache now key st
    let st1 := cached.2
    match cached.1 with
    | some (.earn e) => .ok (e, st1)
    | _ =>
      if mock then
        let e := generateMockEarnings symbol nowD
        .ok (e, setCache now key (.earn e) st1)
      else
        let e := generateMockEarnings symbol nowD
        .ok (e, setCache now key (.earn e) st1)

/-- `getNews` from stocks.ts (both branches after a miss call the generator,
as in `getEarningsHistory`). -/
def getNews (mock : Bool) (now : ℤ) (st : Cache) (symbolRaw : String) (limit : ℕ) :
    Except String (List NewsItem × Cache) :=
  match sanitizeSymbol symbolRaw with
  | .error e => .error e
  | .ok symbol =>
    let key := "news:" ++ symbol ++ ":" ++ toString limit
    let cached := getCache now key st
    let st1 := cached.2
    match cached.1 with
    | some (.news n) => .ok (n, st1)
    | _ =>
      if mock then
        let n := generateMockNews symbol limit now
        .ok (n, setCache now key (.news n) st1)
      else
        let n := generateMockNews symbol limit now
        .ok (n, setCache now key (.news n) st1)

/-- `getStockOverview` from stocks.ts: sanitize, load quote, history and
earnings (the source's `Promise.all` on a single-threaded host, modelled in
the listed order over the shared cache), and return them with an empty news
array — news is loaded separately. -/
def getStockOverview (mock : Bool) (now : ℤ) (nowD : DateOnly) (st : Cache)
    (symbolRaw : String) (range : PriceRange) :
    Except String (StockOverview × Cache) :=
  match sanitizeSymbol symbolRaw with
  | .error e => .error e
  | .ok s =>
    match getQuote mock now st s with
    | .error e => .error e
    | .ok (quote, st1) =>
      match getPriceHistory mock now st1 s range with
      | .error e => .error e
      | .ok (history, st2) =>
        match getEarningsHistory mock now nowD st2 s with
        | .error e => .error e
        | .ok (earnings, st3) =>
          .ok ({ quote := quote, history := history, earnings := earnings, news := [] }, st3)

-- ----------------------------------------------------------------------------
-- The earnings-calendar module (lib/earnings)

/-- Civil date to day number (days since 1970-01-01, proleptic Gregorian),
the value ECMAScript `Date` time arithmetic is based on.  Input uses the
JavaScript 0-based month index. -/
def daysFromCivil (dt : DateOnly) : ℤ :=
  let m := dt.month0 + 1
  let y := if m ≤ 2 then dt.year - 1 else dt.year
  let era := y / 400
  let yoe := y - era * 400
  let mp := (m + 9) % 12
  let doy := (153 * mp + 2) / 5 + dt.day - 1
  let doe := yoe * 365 + yoe / 4 - yoe / 100 + doy
  era * 146097 + doe - 719468

/-- Day number back to a civil date (inverse of `daysFromCivil`). -/
def civilFromDays (z : ℤ) : DateOnly :=
  let z' := z + 719468
  let era := z' / 146097
  let doe := z' - era * 146097
  let yoe := (doe - doe / 1460 + doe / 36524 - doe / 146096) / 365
  let y := yoe + era * 400
  let doy := doe - (365 * yoe + yoe / 4 - yoe / 100)
  let mp := (5 * doy + 2) / 153
  let d := doy - (153 * mp + 2) / 5 + 1
  let m := mp + (if mp < 10 then 3 else -9)
  ⟨if m ≤ 2 then y + 1 else y, m - 1, d⟩

/-- Two-digit zero padding (ISO date components). -/
def pad2 (n : ℤ) : String := if n < 10 then "0" ++ toString n else toString n

/-- Four-digit zero padding (ISO year). -/
def pad4 (n : ℤ) : String :=
  if n < 10 then "000" ++ toString n
  else if n < 100 then "00" ++ toString n
  else if n < 1000 then "0" ++ toString n
  else toString n

/-- The `yyyy-mm-dd` rendering of a date, as `toISOString().slice(0, 10)`. -/
def isoDayString (dt : DateOnly) : String :=
  pad4 dt.year ++ "-" ++ pad2 (dt.month0 + 1) ++ "-" ++ pad2 dt.day

/-- `parseISODate` from the earnings module: `new Date(s)` followed by
`toISOString().slice(0, 10)`, restricted to the date-only ISO form
`YYYY-MM-DD` the application uses (per ECMAScript, date-only forms parse as
UTC and out-of-range components give an invalid date, hence `null`). -/
def parseISODate (s : String) : Option DateOnly :=
  match s.data with
  | [y1, y2, y3, y4, h1, mo1, mo2, h2, d1, d2] =>
    if h1 == '-' && h2 == '-' &&
        [y1, y2, y3, y4, mo1, mo2, d1, d2].all Char.isDigit then
      let num := fun (c : Char) => (c.toNat - 48 : ℤ)
      let y := 1000 * num y1 + 100 * num y2 + 10 * num y3 + num y4
      let mm := 10 * num mo1 + num mo2
      let dd := 10 * num d1 + num d2
      if 1 ≤ mm && mm ≤ 12 && 1 ≤ dd && dd ≤ daysInMonth y (mm - 1) then
        some ⟨y, mm - 1, dd⟩
      else none
    else none
  | _ => none

/-- `clamp` from the earnings module: `Math.max(lo, Math.min(hi, n))`. -/
def clamp (n lo hi : ℤ) : ℤ := max lo (min hi n)

/-- `computeSurprise` from the earnings module: `null` when either EPS value
is missing or the estimate is exactly zero, otherwise
`((actual - estimate) / abs(estimate)) * 100` rounded to 2 decimals. -/
def computeSurprise (epsActual epsEstimate : Option ℚ) : Option ℚ :=
  match epsActual, epsEstimate with
  | some av, some ev =>
    if ev = 0 then none else some (round2 ((av - ev) / |ev| * 100))
  | _, _ => none

/-- The `timeOfDay` union of `EarningsEvent`. -/
inductive TimeOfDay where
  | bmo | amc | tas | unspecified
deriving DecidableEq, Repr

/-- The `EarningsEvent` interface (dates kept structured, as elsewhere). -/
structure EarningsEvent where
  symbol : String
  companyName : String
  date : DateOnly
  timeOfDay : TimeOfDay
  epsEstimate : Option ℚ
  epsActual : Option ℚ
  surprisePercent : Option ℚ
  revenueEstimate : Option ℤ
  revenueActual : Option ℤ
  fiscalPeriod : Option String
deriving DecidableEq, Repr

/-- The `EarningsQuery` interface (`end` is a reserved word in Lean and is
called `endDate` here; `page`/`perPage` are arbitrary JavaScript numbers). -/
structure EarningsQuery where
  start : String
  endDate : String
  q : Option String
  page : Option ℚ
  perPage : Option ℚ
deriving DecidableEq, Repr

/-- The `EarningsResult` interface. -/
structure EarningsResult where
  total : ℕ
  page : ℤ
  perPage : ℤ
  items : List EarningsEvent
  generatedAt : ℤ
deriving DecidableEq, Repr

/-- The `SAMPLE_SYMBOLS` table of the earnings module. -/
def sampleSymbols : List (String × String) :=
  [("AAPL", "Apple Inc."), ("MSFT", "Microsoft Corp."), ("AMZN", "Amazon.com Inc."),
   ("GOOGL", "Alphabet Inc."), ("NVDA", "NVIDIA Corp."), ("TSLA", "Tesla Inc."),
   ("META", "Meta Platforms"), ("NFLX", "Netflix Inc."), ("JPM", "JPMorgan Chase & Co."),
   ("WMT", "Walmart Inc."), ("XOM", "Exxon Mobil Corp."), ("BA", "Boeing Co."),
   ("PFE", "Pfizer Inc."), ("JNJ", "Johnson & Johnson"), ("C", "Citigroup Inc.")]

/-- `page = q.page && q.page > 0 ? Math.floor(q.page) : 1` (0 is falsy, so the
condition is simply `q.page > 0`). -/
def normPage (p : Option ℚ) : ℤ :=
  match p with
  | some v => if 0 < v then ⌊v⌋ else 1
  | none => 1

/-- `perPage = clamp(q.perPage ? Math.floor(q.perPage) : 25, 1, 50)` (0 is
falsy and yields the default 25). -/
def normPerPage (p : Option ℚ) : ℤ :=
  clamp (match p with
         | some v => if v = 0 then 25 else ⌊v⌋
         | none => 25) 1 50

/-- The inner per-day event loop of the earnings mock generator, with the
PRNG draws in exact source order (conditional draws happen only when the
JavaScript short-circuit reaches them; a `revenueEstimate` of 0 is falsy and
skips the `revenueActual` draws). -/
def genEventsForDay (date : DateOnly) : ℕ → ℕ → List EarningsEvent × ℕ
  | 0, t => ([], t)
  | k + 1, t =>
    let (t1, r1) := mulberry32Next t
    let s := sampleSymbols.getD (jsFloor (r1 * 15)).toNat ("", "")
    let (t2, rHas) := mulberry32Next t1
    let hasEps := rHas > 3/10
    let (epsEstimate, t3) :=
      if hasEps then
        let (t', r) := mulberry32Next t2
        (some (round2 (r * 3)), t')
      else (none, t2)
    let (epsActual, t4) :=
      if hasEps then
        let (ta, rb) := mulberry32Next t3
        if rb > 1/2 then
          let (tb, rc) := mulberry32Next ta
          -- epsEstimate! is non-null here because hasEps holds
          (some (round2 (epsEstimate.getD 0 + (rc - 1/2) * (1/2))), tb)
        else (none, ta)
      else (none, t3)
    let (t5, rRevChance) := mulberry32Next t4
    let (revenueEstimate, t6) :=
      if rRevChance > 1/2 then
        let (t', r) := mulberry32Next t5
        (some (jsRound (r * 10000000000)), t')
      else (none, t5)
    let (revenueActual, t7) :=
      match revenueEstimate with
      | some re =>
        if re = 0 then (none, t6)
        else
          let (ta, rb) := mulberry32Next t6
          if rb > 1/2 then
            let (tb, rc) := mulberry32Next ta
            (some (jsRound ((re : ℚ) * (95/100 + rc * (1/10)))), tb)
          else (none, ta)
      | none => (none, t6)
    let (t8, rTod) := mulberry32Next t7
    let (timeOfDay, t9) :=
      if rTod > 1/2 then
        let (ta, rTod2) := mulberry32Next t8
        ((if rTod2 > 1/2 then TimeOfDay.bmo else TimeOfDay.amc), ta)
      else (TimeOfDay.unspecified, t8)
    let qnum := ⌈((date.month0 + 1 : ℤ) : ℚ) / 3⌉
    let ev : EarningsEvent :=
      { symbol := s.1
        companyName := s.2
        date := date
        timeOfDay := timeOfDay
        epsEstimate := epsEstimate
        epsActual := epsActual
        surprisePercent := computeSurprise epsActual epsEstimate
        revenueEstimate := revenueEstimate
        revenueActual := revenueActual
        fiscalPeriod := some ("Q" ++ toString qnum ++ " " ++ toString date.year) }
    let (rest, t') := genEventsForDay date k t9
    (ev :: rest, t')

/-- The outer day loop of the earnings mock generator (`addDaysIso` on the
start date is day-number addition followed by `civilFromDays`). -/
def genDaysAux (startDays : ℤ) : ℕ → ℕ → ℕ → List EarningsEvent
  | 0, _, _ => []
  | n + 1, d, t =>
    let date := civilFromDays (startDays + d)
    let (t1, rPer) := mulberry32Next t
    let perDay := 1 + (jsFloor (rPer * 4)).toNat
    let (evs, t2) := genEventsForDay date perDay t1
    evs ++ genDaysAux startDays n (d + 1) t2

/-- `Array.prototype.slice(s, e)`: negative indices count from the end,
indices are clipped to `[0, length]`, and the result is the elements from the
resolved start (inclusive) to the resolved end (exclusive). -/
def jsSlice {α : Type} (l : List α) (s e : ℤ) : List α :=
  let len : ℤ := l.length
  let s' := if s < 0 then max (len + s) 0 else min s len
  let e' := if e < 0 then max (len + e) 0 else min e len
  (l.drop s'.toNat).take (e'.toNat - s'.toNat)

/-- Whether `sub` occurs as a contiguous sublist of `l`. -/
def listIsInfixOf (sub : List Char) : List Char → Bool
  | [] => sub.isEmpty
  | c :: rest => sub.isPrefixOf (c :: rest) || listIsInfixOf sub rest

/-- `String.prototype.includes` on char lists. -/
def strIncludes (s sub : String) : Bool := listIsInfixOf sub.data s.data

/-- `getEarnings` from the earnings module.  The `mock` flag stands for
`process.env.EARNINGS_DATA_MOCK === '1'`; `now` is `Date.now()`.
`daysBetween` is the difference of the two dates' day numbers, and the date
comparison `new Date(startIso) > new Date(endIso)` is chronological. -/
def getEarnings (mock : Bool) (now : ℤ) (q : EarningsQuery) :
    Except String EarningsResult :=
  let page := normPage q.page
  let perPage := normPerPage q.perPage
  match parseISODate q.start, parseISODate q.endDate with
  | some sd, some ed =>
    if dateKey ed < dateKey sd then .error "start must be <= end"
    else if mock = false then
      -- In a real implementation call provider and map results.
      -- Placeholder: return empty result with metadata.
      .ok { total := 0, page := page, perPage := perPage, items := [], generatedAt := now }
    else
      let startDays := daysFromCivil sd
      let dayCount := (daysFromCivil ed - startDays + 1).toNat
      let seed := hashStringToInt (isoDayString sd ++ "|" ++ isoDayString ed ++ "|" ++ q.q.getD "")
      let events := genDaysAux startDays dayCount 0 seed
      let qLower := (q.q.getD "").toLower
      let filtered :=
        if qLower = "" then events
        else events.filter fun e =>
          strIncludes e.symbol.toLower qLower || strIncludes e.companyName.toLower qLower
      let startIdx := (page - 1) * perPage
      let items := jsSlice filtered startIdx (startIdx + perPage)
      .ok { total := filtered.length, page := page, perPage := perPage,
            items := items, generatedAt := now }
  | _, _ => .error "Invalid start or end date"

-- ============================================================================
-- Proofs
-- ============================================================================

-- PRNG output bounds

lemma mulberry32Next_snd_nonneg (t : ℕ) : 0 ≤ (mulberry32Next t).2 := by
  simp only [mulberry32Next]
  positivity

lemma mulberry32Next_snd_lt_one (t : ℕ) : (mulberry32Next t).2 < 1 := by
  simp only [mulberry32Next]
  rw [div_lt_one (by norm_num)]
  have h : ∀ a : ℕ, a % U32 < 4294967296 := fun a => Nat.mod_lt _ (by norm_num [U32])
  exact_mod_cast h _

-- Rounding to two decimals

lemma round2_mono {x y : ℚ} (h : x ≤ y) : round2 x ≤ round2 y := by
  unfold round2
  have h1 : round (100 * x) ≤ round (100 * y) := by
    rw [round_eq, round_eq]; exact Int.floor_le_floor (by linarith)
  have h2 : ((round (100 * x) : ℤ) : ℚ) ≤ ((round (100 * y) : ℤ) : ℚ) := by exact_mod_cast h1
  linarith

lemma round2_nonneg {x : ℚ} (h : 0 ≤ x) : 0 ≤ round2 x := by
  have h0 : round2 0 = 0 := by simp [round2]
  calc (0 : ℚ) = round2 0 := h0.symm
  _ ≤ round2 x := round2_mono h

lemma int_div_le_round2 {n : ℤ} {x : ℚ} (h : (n : ℚ) / 100 ≤ x) :
    (n : ℚ) / 100 ≤ round2 x := by
  unfold round2
  have h2 : n ≤ round (100 * x) := by
    have : ((n : ℚ)) ≤ 100 * x := by linarith
    calc n = round ((n : ℤ) : ℚ) := (round_intCast n).symm
    _ ≤ round (100 * x) := by
        rw [round_eq, round_eq]; exact Int.floor_le_floor (by linarith)
  have h3 : ((n : ℤ) : ℚ) ≤ ((round (100 * x) : ℤ) : ℚ) := by exact_mod_cast h2
  linarith

lemma round2_le_int_div {n : ℤ} {x : ℚ} (h : x ≤ (n : ℚ) / 100) :
    round2 x ≤ (n : ℚ) / 100 := by
  unfold round2
  have h2 : round (100 * x) ≤ n := by
    have : 100 * x ≤ ((n : ℚ)) := by linarith
    calc round (100 * x) ≤ round ((n : ℤ) : ℚ) := by
          rw [round_eq, round_eq]; exact Int.floor_le_floor (by linarith)
    _ = n := round_intCast n
  have h3 : ((round (100 * x) : ℤ) : ℚ) ≤ ((n : ℤ) : ℚ) := by exact_mod_cast h2
  linarith

-- The OHLC candle invariant

/-- The invariant of a well-formed candle: the high dominates both open and
close, and the low is dominated by both. -/
def candleOk (cd : Candle) : Prop := max cd.o cd.c ≤ cd.h ∧ cd.l ≤ min cd.o cd.c

lemma candle_arith (price r1 r2 r3 r4 o c : ℚ) (hp : 0 ≤ price)
    (h1 : 0 ≤ r1) (h2 : 0 ≤ r2)
    (h3 : 0 ≤ r3) (h4 : 0 ≤ r4)
    (ho : o = round2 (price * (1 + (r1 - 1/2) * (2/1000))))
    (hc : c = round2 (o * (1 + (r2 - 1/2) * (1/100)))) :
    (max o c ≤ round2 (max o c * (1 + r3 * (2/1000))) ∧
      round2 (min o c * (1 - r4 * (2/1000))) ≤ min o c) ∧ 0 ≤ c := by
  have hono : 0 ≤ o := by
    rw [ho]; exact round2_nonneg (mul_nonneg hp (by nlinarith))
  have hcno : 0 ≤ c := by
    rw [hc]; exact round2_nonneg (mul_nonneg hono (by nlinarith))
  obtain ⟨no, hno⟩ : ∃ n : ℤ, o = (n : ℚ) / 100 :=
    ⟨round (100 * (price * (1 + (r1 - 1/2) * (2/1000)))), by rw [ho]; rfl⟩
  obtain ⟨nc, hnc⟩ : ∃ n : ℤ, c = (n : ℚ) / 100 :=
    ⟨round (100 * (o * (1 + (r2 - 1/2) * (1/100)))), by rw [hc]; rfl⟩
  have hmax : max o c = ((max no nc : ℤ) : ℚ) / 100 := by
    rw [hno, hnc, max_div_div_right (by norm_num : (0:ℚ) ≤ 100)]
    norm_cast
  have hmin : min o c = ((min no nc : ℤ) : ℚ) / 100 := by
    rw [hno, hnc, min_div_div_right (by norm_num : (0:ℚ) ≤ 100)]
    norm_cast
  have hmaxno : 0 ≤ max o c := le_max_of_le_left hono
  have hminno : 0 ≤ min o c := le_min hono hcno
  refine ⟨⟨?_, ?_⟩, hcno⟩
  · rw [hmax]
    exact int_div_le_round2 (by rw [← hmax]; nlinarith)
  · rw [hmin]
    exact round2_le_int_div (by rw [← hmin]; nlinarith)

lemma mkCandle_ok (t : ℕ) (price : ℚ) (ts : ℤ) (hp : 0 ≤ price) :
    candleOk (mkCandle t price ts).1 ∧ 0 ≤ (mkCandle t price ts).2.1 := by
  have h := candle_arith price
    (mulberry32Next t).2
    (mulberry32Next (mulberry32Next t).1).2
    (mulberry32Next (mulberry32Next (mulberry32Next t).1).1).2
    (mulberry32Next (mulberry32Next (mulberry32Next (mulberry32Next t).1).1).1).2
    _ _ hp
    (mulberry32Next_snd_nonneg _) (mulberry32Next_snd_nonneg _)
    (mulberry32Next_snd_nonneg _) (mulberry32Next_snd_nonneg _)
    rfl rfl
  simpa [mkCandle, candleOk] using h

lemma mkCandle_t (t : ℕ) (price : ℚ) (ts : ℤ) : (mkCandle t price ts).1.t = ts := by
  simp [mkCandle]

lemma genCandlesAux_forall (now step : ℤ) :
    ∀ (i t : ℕ) (price : ℚ), 0 ≤ price →
      (genCandlesAux now step i t price).Forall candleOk := by
  intro i
  induction i with
  | zero =>
    intro t price hp
    simpa [genCandlesAux] using (mkCandle_ok t price now hp).1
  | succ i ih =>
    intro t price hp
    rw [genCandlesAux, List.forall_cons]
    exact ⟨(mkCandle_ok t price _ hp).1, ih _ _ (mkCandle_ok t price _ hp).2⟩

lemma basePrice_getD_nonneg (sym : String) : 0 ≤ (basePriceTable sym).getD 100 := by
  unfold basePriceTable
  split <;> norm_num

/-- C6 — For every symbol, every range, and every candle produced by the mock
history generator (all values rounded to 2 decimals as emitted):
high ≥ max(open, close) and low ≤ min(open, close). -/
theorem spec_c6_history_ohlc_invariant (sym : String) (range : PriceRange) (now : ℤ) :
    (generateMockHistory sym range now).Forall
      (fun cd => max cd.o cd.c ≤ cd.h ∧ cd.l ≤ min cd.o cd.c) := by
  have hr := mulberry32Next_snd_nonneg (hashStringToInt (sym ++ "|" ++ rangeKey range))
  have hprice : 0 ≤ (basePriceTable sym).getD 100 *
      (1 + ((mulberry32Next (hashStringToInt (sym ++ "|" ++ rangeKey range))).2 - 1/2) * (2/100)) :=
    mul_nonneg (basePrice_getD_nonneg sym) (by nlinarith)
  have h := genCandlesAux_forall now
    ((rangeToMinutes range * 60 * 1000 : ℕ) : ℤ)
    (max 10 ((durationMs range + rangeToMinutes range * 60 * 1000 - 1) /
      (rangeToMinutes range * 60 * 1000)))
    (mulberry32Next (hashStringToInt (sym ++ "|" ++ rangeKey range))).1 _ hprice
  rw [List.forall_iff_forall_mem]
  intro x hx
  have hmem : x ∈ genCandlesAux now
      ((rangeToMinutes range * 60 * 1000 : ℕ) : ℤ)
      (max 10 ((durationMs range + rangeToMinutes range * 60 * 1000 - 1) /
        (rangeToMinutes range * 60 * 1000)))
      (mulberry32Next (hashStringToInt (sym ++ "|" ++ rangeKey range))).1
      ((basePriceTable sym).getD 100 *
        (1 + ((mulberry32Next (hashStringToInt (sym ++ "|" ++ rangeKey range))).2 - 1/2) * (2/100))) := by
    simpa [generateMockHistory] using hx
  exact List.forall_iff_forall_mem.1 h x hmem

-- Candle count and timestamps

lemma genCandlesAux_length (now step : ℤ) :
    ∀ (i t : ℕ) (price : ℚ), (genCandlesAux now step i t price).length = i + 1 := by
  intro i
  induction i with
  | zero => intro t price; simp [genCandlesAux]
  | succ i ih => intro t price; rw [genCandlesAux]; simp [ih]

lemma genCandlesAux_cons (now step : ℤ) :
    ∀ (i t : ℕ) (price : ℚ), ∃ cd rest,
      genCandlesAux now step i t price = cd :: rest ∧ cd.t = now - (i : ℤ) * step := by
  intro i
  cases i with
  | zero =>
    intro t price
    exact ⟨_, _, rfl, by simp [mkCandle_t]⟩
  | succ i =>
    intro t price
    rw [genCandlesAux]
    exact ⟨_, _, rfl, by rw [mkCandle_t]; push_cast; ring⟩

lemma genCandlesAux_chain (now step : ℤ) (hstep : 0 < step) :
    ∀ (i t : ℕ) (price : ℚ),
      List.Chain' (fun a b => a.t < b.t) (genCandlesAux now step i t price) := by
  intro i
  induction i with
  | zero => intro t price; simp [genCandlesAux]
  | succ i ih =>
    intro t price
    rw [genCandlesAux]
    refine List.chain'_cons'.2 ⟨?_, ih _ _⟩
    intro y hy
    obtain ⟨cd, rest, heq, ht⟩ := genCandlesAux_cons now step i
      (mkCandle t price (now - ((i : ℤ) + 1) * step)).2.2
      (mkCandle t price (now - ((i : ℤ) + 1) * step)).2.1
    rw [heq] at hy
    simp only [List.head?_cons, Option.mem_def, Option.some.injEq] at hy
    subst hy
    rw [mkCandle_t, ht]
    have : (i : ℤ) * step < ((i : ℤ) + 1) * step := by nlinarith
    linarith

lemma generateMockHistory_length (sym : String) (range : PriceRange) (now : ℤ) :
    (generateMockHistory sym range now).length =
      max 10 ((durationMs range + rangeToMinutes range * 60 * 1000 - 1) /
        (rangeToMinutes range * 60 * 1000)) + 1 := by
  simp [generateMockHistory, genCandlesAux_length]

lemma rangeToMinutes_pos (range : PriceRange) : 0 < rangeToMinutes range := by
  cases range <;> norm_num [rangeToMinutes]

lemma generateMockHistory_chain (sym : String) (range : PriceRange) (now : ℤ) :
    List.Chain' (fun a b => a.t < b.t) (generateMockHistory sym range now) := by
  have hpos : (0 : ℤ) < ((rangeToMinutes range * 60 * 1000 : ℕ) : ℤ) := by
    have := rangeToMinutes_pos range
    positivity
  have hch := genCandlesAux_chain now ((rangeToMinutes range * 60 * 1000 : ℕ) : ℤ) hpos
    (max 10 ((durationMs range + rangeToMinutes range * 60 * 1000 - 1) /
      (rangeToMinutes range * 60 * 1000)))
    (mulberry32Next (hashStringToInt (sym ++ "|" ++ rangeKey range))).1
    ((basePriceTable sym).getD 100 *
      (1 + ((mulberry32Next (hashStringToInt (sym ++ "|" ++ rangeKey range))).2 - 1/2) * (2/100)))
  simpa [generateMockHistory] using hch

lemma generateMockHistory_ne_nil (sym : String) (range : PriceRange) (now : ℤ) :
    generateMockHistory sym range now ≠ [] := by
  intro hnil
  have hl := generateMockHistory_length sym range now
  rw [hnil] at hl
  simp at hl

/-- Claim C1 (amended) — With mock-mode on and a valid symbol, a miss in the
cache for the 1Y-history key, `getPriceHistory` with range `"1Y"` returns a
non-empty Candle sequence with strictly ascending timestamps whose length is
`max(10, ceil(365 days / 1 day)) + 1 = 366` (the loop runs from `points`
down to 0 inclusive, one more than `points = 365`). -/
theorem spec_c1_history_1y (raw s : String) (now : ℤ) (st : Cache)
    (h1 : sanitizeSymbol raw = .ok s)
    (h2 : mapGet st ("hist:" ++ s ++ ":" ++ rangeKey PriceRange.oneY) = none) :
    ∃ hist st', getPriceHistory true now st raw PriceRange.oneY = .ok (hist, st') ∧
      hist = generateMockHistory s PriceRange.oneY now ∧
      hist.length = 366 ∧ hist ≠ [] ∧ List.Chain' (fun a b => a.t < b.t) hist := by
  refine ⟨generateMockHistory s PriceRange.oneY now,
    setCache now ("hist:" ++ s ++ ":" ++ rangeKey PriceRange.oneY)
      (.hist (generateMockHistory s PriceRange.oneY now)) st,
    ?_, rfl, ?_, generateMockHistory_ne_nil s _ now, generateMockHistory_chain s _ now⟩
  · simp [getPriceHistory, h1, getCache, h2]
  · rw [generateMockHistory_length]
    norm_num [durationMs, rangeToMinutes]

/-- Claim C1 witness: the amended statement instantiated at symbol
`"AAPL"`, time 0 and the empty cache. -/
theorem spec_c1_history_1y_witness :
    ∃ hist st', getPriceHistory true 0 ([] : Cache) "AAPL" PriceRange.oneY = .ok (hist, st') ∧
      hist = generateMockHistory "AAPL" PriceRange.oneY 0 ∧
      hist.length = 366 ∧ hist ≠ [] ∧ List.Chain' (fun a b => a.t < b.t) hist :=
  spec_c1_history_1y "AAPL" "AAPL" 0 [] rfl rfl

/-- Claim C1 counterexample — at symbol `"AAPL"`, range `"1Y"`, mock-mode on
and an empty cache, the returned history has length 366, not 365 as the claim
states. -/
theorem spec_c1_counterexample :
    (getPriceHistory true 0 ([] : Cache) "AAPL" PriceRange.oneY).map
      (fun p => p.1.length) = .ok 366 ∧ (366 : ℕ) ≠ 365 := by
  refine ⟨?_, by decide⟩
  have hs : sanitizeSymbol "AAPL" = .ok "AAPL" := rfl
  have hkey : getPriceHistory true 0 ([] : Cache) "AAPL" PriceRange.oneY =
      .ok (generateMockHistory "AAPL" PriceRange.oneY 0,
        setCache 0 ("hist:" ++ "AAPL" ++ ":" ++ rangeKey PriceRange.oneY)
          (.hist (generateMockHistory "AAPL" PriceRange.oneY 0)) []) := by
    simp [getPriceHistory, hs, getCache, mapGet]
  rw [hkey]
  simp only [Except.map]
  rw [generateMockHistory_length]
  norm_num [durationMs, rangeToMinutes]

-- Cache map lemmas

lemma mapGet_mapSet_self : ∀ (c : Cache) (k : String) (e : CacheEntry),
    mapGet (mapSet c k e) k = some e := by
  intro c k e
  induction c with
  | nil => simp [mapSet, mapGet]
  | cons p rest ih =>
    obtain ⟨k', e'⟩ := p
    by_cases h : k' = k <;> simp [mapSet, mapGet, h, ih]

lemma mapGet_mapSet_ne : ∀ (c : Cache) (k k' : String) (e : CacheEntry), k ≠ k' →
    mapGet (mapSet c k e) k' = mapGet c k' := by
  intro c k k' e hne
  induction c with
  | nil => simp [mapSet, mapGet, hne]
  | cons p rest ih =>
    obtain ⟨k'', e''⟩ := p
    by_cases h : k'' = k
    · subst h
      simp [mapSet, mapGet, hne]
    · simp [mapSet, mapGet, h, ih]

lemma mapSet_fresh : ∀ (c : Cache) (k : String) (e : CacheEntry),
    mapGet c k = none → mapSet c k e = c ++ [(k, e)] := by
  intro c k e hf
  induction c with
  | nil => rfl
  | cons p rest ih =>
    obtain ⟨k', e'⟩ := p
    by_cases h : k' = k
    · simp [mapGet, h] at hf
    · simp [mapGet, h] at hf
      simp [mapSet, h, ih hf]

lemma setCache_small (now : ℤ) (k : String) (v : CacheValue) (c : Cache)
    (hlen : c.length ≤ MAX_CACHE) (hf : mapGet c k = none) :
    setCache now k v c = c ++ [(k, ⟨now, v⟩)] := by
  simp only [setCache]
  rw [if_neg (not_lt.2 hlen)]
  exact mapSet_fresh c k _ hf

lemma setCache_evict (now : ℤ) (k : String) (v : CacheValue) (k0 : String)
    (e0 : CacheEntry) (rest : Cache) (hk0ne : k0 ≠ "")
    (hlen : MAX_CACHE < ((k0, e0) :: rest : Cache).length)
    (hf : mapGet ((k0, e0) :: rest) k = none) :
    setCache now k v ((k0, e0) :: rest) = rest ++ [(k, ⟨now, v⟩)] := by
  have hk0 : ¬ k0 = k := by
    intro h
    simp [mapGet, h] at hf
  have hfr : mapGet rest k = none := by
    simpa [mapGet, hk0] using hf
  simp only [setCache]
  rw [if_pos hlen, if_neg hk0ne]
  simp only [mapDelete, if_pos rfl]
  exact mapSet_fresh rest k _ hfr

lemma setCache_first_empty (now : ℤ) (k : String) (v : CacheValue)
    (e0 : CacheEntry) (rest : Cache)
    (hlen : MAX_CACHE < (("", e0) :: rest : Cache).length)
    (hf : mapGet (("", e0) :: rest) k = none) :
    setCache now k v (("", e0) :: rest) = (("", e0) :: rest) ++ [(k, ⟨now, v⟩)] := by
  simp only [setCache]
  rw [if_pos hlen]
  simp only [if_true]
  exact mapSet_fresh _ k _ hf

lemma mapGet_setCache (now : ℤ) (k : String) (v : CacheValue) (c : Cache) :
    mapGet (setCache now k v c) k = some ⟨now, v⟩ := by
  simp only [setCache]
  exact mapGet_mapSet_self _ k _

/-- Repeated insertion through `setCache` (the experiment described by the
cache-bound claim). -/
def insertList (now : ℤ) (v : CacheValue) (ks : List String) (st : Cache) : Cache :=
  ks.foldl (fun c k => setCache now k v c) st

lemma insertList_fresh_length (now : ℤ) (v : CacheValue) :
    ∀ (ks : List String) (st : Cache), ks.Nodup → (∀ k ∈ ks, mapGet st k = none) →
      st.length + ks.length ≤ MAX_CACHE + 1 →
      (insertList now v ks st).length = st.length + ks.length := by
  intro ks
  induction ks with
  | nil => intro st _ _ _; simp [insertList]
  | cons k ks ih =>
    intro st hnd hf hle
    have hfk : mapGet st k = none := hf k (by simp)
    have hlen : st.length ≤ MAX_CACHE := by
      simp only [List.length_cons] at hle; omega
    have hstep : setCache now k v st = st ++ [(k, ⟨now, v⟩)] :=
      setCache_small now k v st hlen hfk
    have hfold : insertList now v (k :: ks) st = insertList now v ks (setCache now k v st) := rfl
    rw [hfold, ih (setCache now k v st) (List.nodup_cons.1 hnd).2 ?_ ?_]
    · rw [hstep]; simp; omega
    · intro k' hk'
      have hne : k ≠ k' := fun h => (List.nodup_cons.1 hnd).1 (h ▸ hk')
      rw [hstep, ← mapSet_fresh st k _ hfk, mapGet_mapSet_ne st k k' _ hne]
      exact hf k' (List.mem_cons_of_mem _ hk')
    · rw [hstep]; simp at hle ⊢; omega

/-- The `i`-th distinct key used in the cache-bound experiment. -/
def cacheKeyOfNat (i : ℕ) : String := String.mk (List.replicate i 'a')

/-- 201 distinct cache keys. -/
def keys201 : List String := (List.range 201).map cacheKeyOfNat

lemma cacheKeyOfNat_injective : Function.Injective cacheKeyOfNat := by
  intro i j h
  have h2 : List.replicate i 'a' = List.replicate j 'a' := congrArg String.data h
  have h3 := congrArg List.length h2
  simpa using h3

lemma keys201_nodup : keys201.Nodup :=
  List.Nodup.map cacheKeyOfNat_injective (List.nodup_range 201)

lemma keys201_length : keys201.length = 201 := by simp [keys201]

/-- Claim C2 counterexample — inserting 201 distinct keys into the empty
cache via `setCache` leaves 201 entries, not 200: `setCache` evicts only when
the size already exceeds 200 before the insert. -/
theorem spec_c2_counterexample :
    (insertList 0 (CacheValue.hist []) keys201 []).length = 201 ∧ (201 : ℕ) ≠ 200 := by
  refine ⟨?_, by decide⟩
  have h := insertList_fresh_length 0 (CacheValue.hist []) keys201 [] keys201_nodup
    (by intro k _; rfl) (by rw [keys201_length]; norm_num [MAX_CACHE])
  rw [keys201_length] at h
  simpa using h

/-- Claim C2 (amended) — `setCache` evicts only when the size already exceeds
the maximum (200) before the insert, so (a) inserting 201 distinct keys into
an empty cache leaves exactly 201 entries; (b) while the size is at most 200,
`set` of a fresh key appends without evicting; (c) once the size exceeds 200,
`set` of a fresh key evicts exactly the first entry in insertion order —
provided its key is non-empty, since the source's `if (firstKey)` truthiness
guard skips the delete for a falsy key — and appends the new one; (d) when
the first key is the empty string, the over-capacity insert evicts nothing. -/
theorem spec_c2_cache_bound :
    (∀ (now : ℤ) (v : CacheValue) (ks : List String), ks.Nodup →
      ks.length = MAX_CACHE + 1 →
      (insertList now v ks []).length = MAX_CACHE + 1)
    ∧ (∀ (now : ℤ) (v : CacheValue) (k : String) (c : Cache),
        mapGet c k = none → c.length ≤ MAX_CACHE →
        setCache now k v c = c ++ [(k, ⟨now, v⟩)])
    ∧ (∀ (now : ℤ) (v : CacheValue) (k k0 : String) (e0 : CacheEntry) (rest : Cache),
        k0 ≠ "" →
        MAX_CACHE < ((k0, e0) :: rest : Cache).length →
        mapGet ((k0, e0) :: rest) k = none →
        setCache now k v ((k0, e0) :: rest) = rest ++ [(k, ⟨now, v⟩)])
    ∧ (∀ (now : ℤ) (v : CacheValue) (k : String) (e0 : CacheEntry) (rest : Cache),
        MAX_CACHE < (("", e0) :: rest : Cache).length →
        mapGet (("", e0) :: rest) k = none →
        setCache now k v (("", e0) :: rest) = (("", e0) :: rest) ++ [(k, ⟨now, v⟩)]) := by
  refine ⟨?_, ?_, ?_, ?_⟩
  · intro now v ks hnd hlen
    have h := insertList_fresh_length now v ks [] hnd (by intro k _; rfl)
      (by rw [hlen]; simp)
    rw [hlen] at h
    simpa using h
  · intro now v k c hf hlen
    exact setCache_small now k v c hlen hf
  · intro now v k k0 e0 rest hk0ne hlen hf
    exact setCache_evict now k v k0 e0 rest hk0ne hlen hf
  · intro now v k e0 rest hlen hf
    exact setCache_first_empty now k v e0 rest hlen hf

/-- Claim C2 witness: the amended statement at concrete inputs — the
201-insert experiment, a small-cache append, an eviction at size 201 with
non-empty first key, and the skipped eviction when the first key is empty. -/
theorem spec_c2_cache_bound_witness :
    (insertList 0 (CacheValue.hist []) keys201 []).length = MAX_CACHE + 1 ∧
    setCache 0 "B" (CacheValue.hist []) [("A", ⟨0, CacheValue.hist []⟩)] =
      [("A", ⟨0, CacheValue.hist []⟩)] ++ [("B", ⟨0, CacheValue.hist []⟩)] ∧
    setCache 0 "B" (CacheValue.hist [])
        (("A", ⟨0, CacheValue.hist []⟩) :: List.replicate 200 ("R", ⟨0, CacheValue.hist []⟩)) =
      List.replicate 200 ("R", ⟨0, CacheValue.hist []⟩) ++ [("B", ⟨0, CacheValue.hist []⟩)] ∧
    setCache 0 "B" (CacheValue.hist [])
        (("", ⟨0, CacheValue.hist []⟩) :: List.replicate 200 ("R", ⟨0, CacheValue.hist []⟩)) =
      (("", ⟨0, CacheValue.hist []⟩) :: List.replicate 200 ("R", ⟨0, CacheValue.hist []⟩)) ++
        [("B", ⟨0, CacheValue.hist []⟩)] :=
  ⟨spec_c2_cache_bound.1 0 (CacheValue.hist []) keys201 keys201_nodup
      (by rw [keys201_length]; rfl),
   spec_c2_cache_bound.2.1 0 (CacheValue.hist []) "B" [("A", ⟨0, CacheValue.hist []⟩)]
      (by decide) (by norm_num [MAX_CACHE]),
   spec_c2_cache_bound.2.2.1 0 (CacheValue.hist []) "B" "A" ⟨0, CacheValue.hist []⟩
      (List.replicate 200 ("R", ⟨0, CacheValue.hist []⟩)) (by decide)
      (by rw [List.length_cons, List.length_replicate]; norm_num [MAX_CACHE]) (by decide),
   spec_c2_cache_bound.2.2.2 0 (CacheValue.hist []) "B" ⟨0, CacheValue.hist []⟩
      (List.replicate 200 ("R", ⟨0, CacheValue.hist []⟩))
      (by rw [List.length_cons, List.length_replicate]; norm_num [MAX_CACHE]) (by decide)⟩

/-- Claim C3 (amended) — an entry inserted at time T is a hit for a read at
T+Δ whenever Δ ≤ TTL (the boundary Δ = TTL is still a hit, since the code
expires only when `now - ts > TTL`), and is a miss (and deleted) whenever
Δ > TTL. -/
theorem spec_c3_cache_ttl :
    (∀ (now : ℤ) (key : String) (c : Cache) (e : CacheEntry),
      mapGet c key = some e → now - e.ts ≤ CACHE_TTL →
      getCache now key c = (some e.value, c))
    ∧ (∀ (now : ℤ) (key : String) (c : Cache) (e : CacheEntry),
      mapGet c key = some e → CACHE_TTL < now - e.ts →
      getCache now key c = (none, mapDelete c key)) := by
  constructor
  · intro now key c e hg hd
    simp only [getCache, hg]
    rw [if_neg (not_lt.2 hd)]
  · intro now key c e hg hd
    simp only [getCache, hg]
    rw [if_pos hd]

/-- Claim C3 witness: the amended statement at a hit (Δ = 100) and a miss
(Δ = TTL + 1). -/
theorem spec_c3_cache_ttl_witness :
    getCache 100 "k" [("k", ⟨0, CacheValue.hist []⟩)] =
      (some (CacheValue.hist []), [("k", ⟨0, CacheValue.hist []⟩)]) ∧
    getCache 300001 "k" [("k", ⟨0, CacheValue.hist []⟩)] =
      (none, mapDelete [("k", ⟨0, CacheValue.hist []⟩)] "k") :=
  ⟨spec_c3_cache_ttl.1 100 "k" _ ⟨0, CacheValue.hist []⟩ (by decide) (by decide),
   spec_c3_cache_ttl.2 300001 "k" _ ⟨0, CacheValue.hist []⟩ (by decide) (by decide)⟩

/-- Claim C3 counterexample — at Δ = TTL exactly (inserted at 0, read at
300000 ms = TTL), `getCache` returns a hit, where the claim requires a miss
for every Δ ≥ TTL. -/
theorem spec_c3_counterexample :
    getCache CACHE_TTL "k" [("k", ⟨0, CacheValue.hist []⟩)] =
      (some (CacheValue.hist []), [("k", ⟨0, CacheValue.hist []⟩)]) ∧
    CACHE_TTL ≤ CACHE_TTL - 0 := by
  exact ⟨by decide, by decide⟩

/-- Claim C4 — with mock-mode off and the provider placeholder (which always
throws), `getQuote` on a valid uncached symbol catches the failure, returns
the synthetic quote (a structurally complete `Quote`), caches it under
`quote:<symbol>`, and never propagates an exception. -/
theorem spec_c4_provider_fallback (now : ℤ) (st : Cache) (raw s : String)
    (h1 : sanitizeSymbol raw = .ok s)
    (h2 : mapGet st ("quote:" ++ s) = none) :
    (∃ msg, fetchFromProvider Quote s none = .error msg) ∧
    ∃ q st', getQuote false now st raw = .ok (q, st') ∧
      q = generateMockQuote s now ∧
      mapGet st' ("quote:" ++ s) = some ⟨now, .quote q⟩ := by
  refine ⟨⟨_, rfl⟩, generateMockQuote s now,
    setCache now ("quote:" ++ s) (.quote (generateMockQuote s now)) st,
    ?_, rfl, mapGet_setCache now _ _ st⟩
  simp [getQuote, h1, getCache, h2, fetchFromProvider]

/-- Claim C4 witness: the statement at symbol `"AAPL"`, time 0 and the empty
cache. -/
theorem spec_c4_provider_fallback_witness :
    (∃ msg, fetchFromProvider Quote "AAPL" none = .error msg) ∧
    ∃ q st', getQuote false 0 ([] : Cache) "AAPL" = .ok (q, st') ∧
      q = generateMockQuote "AAPL" 0 ∧
      mapGet st' ("quote:" ++ "AAPL") = some ⟨0, .quote q⟩ :=
  spec_c4_provider_fallback 0 [] "AAPL" "AAPL" rfl rfl

/-- Claim C5 — `computeSurprise` returns `null` whenever either EPS value is
missing or the estimate is exactly 0, and otherwise returns
`((actual - estimate) / abs(estimate)) * 100` rounded to two decimals; it is
a total function (never throws) and the division is guarded. -/
theorem spec_c5_compute_surprise :
    (∀ a : Option ℚ, computeSurprise a none = none) ∧
    (∀ e : Option ℚ, computeSurprise none e = none) ∧
    (∀ a : Option ℚ, computeSurprise a (some 0) = none) ∧
    (∀ av ev : ℚ, ev ≠ 0 →
      computeSurprise (some av) (some ev) = some (round2 ((av - ev) / |ev| * 100))) := by
  refine ⟨?_, ?_, ?_, ?_⟩
  · intro a; cases a <;> rfl
  · intro e; cases e <;> rfl
  · intro a; cases a <;> simp [computeSurprise]
  · intro av ev h; simp [computeSurprise, h]

/-- Claim C5 witness: the statement at concrete inputs, including the
division case at estimate 1. -/
theorem spec_c5_compute_surprise_witness :
    computeSurprise (some 2) none = none ∧
    computeSurprise none (some 3) = none ∧
    computeSurprise (some 2) (some 0) = none ∧
    computeSurprise (some 2) (some 1) = some (round2 ((2 - 1) / |1| * 100)) :=
  ⟨spec_c5_compute_surprise.1 (some 2), spec_c5_compute_surprise.2.1 (some 3),
   spec_c5_compute_surprise.2.2.1 (some 2),
   spec_c5_compute_surprise.2.2.2 2 1 (by norm_num)⟩

-- Calendar lemmas and the earnings ordering

lemma daysInMonth_bounds (y m0 : ℤ) :
    28 ≤ daysInMonth y m0 ∧ daysInMonth y m0 ≤ 31 := by
  unfold daysInMonth
  split_ifs <;> norm_num

lemma setMonthNorm_spec (dt : DateOnly) (hv : validDate dt) (M : ℤ) :
    ((setMonthNorm dt M).year * 12 + (setMonthNorm dt M).month0 = dt.year * 12 + M ∨
      (setMonthNorm dt M).year * 12 + (setMonthNorm dt M).month0 = dt.year * 12 + M + 1) ∧
    1 ≤ (setMonthNorm dt M).day ∧ (setMonthNorm dt M).day ≤ 31 := by
  obtain ⟨hm0, hm1, hd1, hd2⟩ := hv
  have hdim := daysInMonth_bounds ((dt.year * 12 + M) / 12) ((dt.year * 12 + M) % 12)
  have hid : 12 * ((dt.year * 12 + M) / 12) + (dt.year * 12 + M) % 12 = dt.year * 12 + M :=
    Int.ediv_add_emod _ 12
  have hid2 : 12 * ((dt.year * 12 + M + 1) / 12) + (dt.year * 12 + M + 1) % 12 =
      dt.year * 12 + M + 1 := Int.ediv_add_emod _ 12
  simp only [setMonthNorm]
  split_ifs with hroll
  · exact ⟨Or.inl (by dsimp; omega), by dsimp; omega, by dsimp; omega⟩
  · exact ⟨Or.inr (by dsimp; omega), by dsimp; omega, by dsimp; omega⟩

lemma setMonthNorm_key_lt (dt : DateOnly) (hv : validDate dt) (M : ℤ) :
    dateKey (setMonthNorm dt (M - 3)) < dateKey (setMonthNorm dt M) := by
  obtain ⟨hlin1, hd1a, hd1b⟩ := setMonthNorm_spec dt hv (M - 3)
  obtain ⟨hlin2, hd2a, hd2b⟩ := setMonthNorm_spec dt hv M
  unfold dateKey
  rcases hlin1 with h1 | h1 <;> rcases hlin2 with h2 | h2 <;> omega

/-- Strict chronological order on the (always-present) dates of two generated
earnings quarters. -/
def earnDateLtB (a b : EarningsQuarter) : Bool :=
  match a.date, b.date with
  | some da, some db => decide (dateKey da < dateKey db)
  | _, _ => false

lemma genEarnAux_length (nowD : DateOnly) :
    ∀ (n i t : ℕ), (genEarnAux nowD n i t).length = n := by
  intro n
  induction n with
  | zero => intro i t; rfl
  | succ m ih => intro i t; rw [genEarnAux]; simp [ih]

lemma genEarnAux_head_date (nowD : DateOnly) (n i t : ℕ) (hn : n ≠ 0) :
    ∃ q rest, genEarnAux nowD n i t = q :: rest ∧
      q.date = some (setMonthNorm nowD (nowD.month0 - 3 * (i : ℤ))) := by
  cases n with
  | zero => exact absurd rfl hn
  | succ m => rw [genEarnAux]; exact ⟨_, _, rfl, rfl⟩

lemma genEarnAux_chain (nowD : DateOnly) (hv : validDate nowD) :
    ∀ (n i t : ℕ),
      List.Chain' (fun a b => earnDateLtB b a = true) (genEarnAux nowD n i t) := by
  intro n
  induction n with
  | zero => intro i t; simp [genEarnAux]
  | succ m ih =>
    intro i t
    rw [genEarnAux]
    refine List.chain'_cons'.2 ⟨?_, ih (i + 1) _⟩
    intro y hy
    cases m with
    | zero => simp [genEarnAux] at hy
    | succ m' =>
      obtain ⟨q, rest, heq, hdate⟩ :=
        genEarnAux_head_date nowD (m' + 1) (i + 1) _ (by omega)
      rw [heq] at hy
      simp only [List.head?_cons, Option.mem_def, Option.some.injEq] at hy
      subst hy
      simp only [earnDateLtB, hdate, decide_eq_true_eq]
      have harg : nowD.month0 - 3 * ((i : ℤ) + 1) = (nowD.month0 - 3 * (i : ℤ)) - 3 := by ring
      rw [show ((i : ℕ) + 1 : ℕ) = i + 1 from rfl]
      push_cast [harg]
      have := setMonthNorm_key_lt nowD hv (nowD.month0 - 3 * (i : ℤ))
      convert this using 3

/-- Claim C7 — for every symbol and every (valid) current date, the mock
earnings generator returns exactly 8 quarters, stepping back 3 months at a
time from the current date and reversed to oldest-first order, so the date
field is strictly increasing across the returned sequence. -/
theorem spec_c7_earnings_order (sym : String) (nowD : DateOnly) (hv : validDate nowD) :
    (generateMockEarnings sym nowD).length = 8 ∧
    List.Chain' (fun a b => earnDateLtB a b = true) (generateMockEarnings sym nowD) := by
  constructor
  · unfold generateMockEarnings
    rw [List.length_reverse, genEarnAux_length]
  · unfold generateMockEarnings
    rw [List.chain'_reverse]
    exact genEarnAux_chain nowD hv 8 0 _

/-- Claim C7 witness: the statement at symbol `"AAPL"` and current date
2025-10-12. -/
theorem spec_c7_earnings_order_witness :
    (generateMockEarnings "AAPL" ⟨2025, 9, 12⟩).length = 8 ∧
    List.Chain' (fun a b => earnDateLtB a b = true)
      (generateMockEarnings "AAPL" ⟨2025, 9, 12⟩) :=
  spec_c7_earnings_order "AAPL" ⟨2025, 9, 12⟩ (by norm_num [validDate])

-- Symbol validation and the public getters

/-- The class `[A-Z0-9.\-]` contains no lowercase letter, so `Char.toUpper`
fixes every valid character. -/
lemma toUpper_of_valid (c : Char) (h : validSymChar c = true) : c.toUpper = c := by
  simp only [validSymChar, Bool.or_eq_true, Bool.and_eq_true, decide_eq_true_eq,
    beq_iff_eq] at h
  simp only [Char.toUpper]
  rw [if_neg (by omega)]

/-- A sanitized symbol sanitizes to itself (uppercasing is idempotent on the
valid character class). -/
lemma sanitize_idem (raw s : String) (h : sanitizeSymbol raw = .ok s) :
    sanitizeSymbol s = .ok s := by
  unfold sanitizeSymbol at h ⊢
  by_cases h0 : raw = ""
  · rw [if_pos h0] at h; exact Except.noConfusion h
  · rw [if_neg h0] at h
    by_cases hall : (jsToUpper raw).data.all validSymChar = true
    · rw [if_pos hall] at h
      have hs : jsToUpper raw = s := Except.ok.inj h
      have hdata : s.data = raw.data.map Char.toUpper := by rw [← hs]; rfl
      have hallS : s.data.all validSymChar = true := by rw [← hs]; exact hall
      have hne : ¬ s = "" := by
        intro hE
        apply h0
        have hnil : raw.data.map Char.toUpper = [] := by rw [← hdata, hE]
        have hrawnil : raw.data = [] := List.map_eq_nil_iff.1 hnil
        have : raw = String.mk raw.data := rfl
        rw [this, hrawnil]
      rw [if_neg hne]
      have hfix : s.data.map Char.toUpper = s.data := by
        have hmem : ∀ c ∈ s.data, Char.toUpper c = id c := by
          intro c hc
          exact toUpper_of_valid c (List.all_eq_true.1 hallS c hc)
        calc s.data.map Char.toUpper = s.data.map id := List.map_congr_left hmem
        _ = s.data := List.map_id _
      have hjs : jsToUpper s = s := by
        unfold jsToUpper
        rw [hfix]
      rw [hjs, if_pos hallS]
    · rw [if_neg hall] at h; exact Except.noConfusion h

lemma getQuote_total (mock : Bool) (now : ℤ) (st : Cache) (s : String)
    (hs : sanitizeSymbol s = .ok s) :
    ∃ q st', getQuote mock now st s = .ok (q, st') := by
  simp only [getQuote, hs]
  rcases hg : (getCache now ("quote:" ++ s) st).1 with _ | v
  · simp only [hg]; cases mock <;> exact ⟨_, _, rfl⟩
  · cases v with
    | quote q => simp only [hg]; exact ⟨q, _, rfl⟩
    | hist h => simp only [hg]; cases mock <;> exact ⟨_, _, rfl⟩
    | earn e => simp only [hg]; cases mock <;> exact ⟨_, _, rfl⟩
    | news n => simp only [hg]; cases mock <;> exact ⟨_, _, rfl⟩

lemma getPriceHistory_total (mock : Bool) (now : ℤ) (st : Cache) (s : String)
    (range : PriceRange) (hs : sanitizeSymbol s = .ok s) :
    ∃ h st', getPriceHistory mock now st s range = .ok (h, st') := by
  simp only [getPriceHistory, hs]
  rcases hg : (getCache now ("hist:" ++ s ++ ":" ++ rangeKey range) st).1 with _ | v
  · simp only [hg]; cases mock <;> exact ⟨_, _, rfl⟩
  · cases v with
    | quote q => simp only [hg]; cases mock <;> exact ⟨_, _, rfl⟩
    | hist h => simp only [hg]; exact ⟨h, _, rfl⟩
    | earn e => simp only [hg]; cases mock <;> exact ⟨_, _, rfl⟩
    | news n => simp only [hg]; cases mock <;> exact ⟨_, _, rfl⟩

lemma getEarningsHistory_total (mock : Bool) (now : ℤ) (nowD : DateOnly) (st : Cache)
    (s : String) (hs : sanitizeSymbol s = .ok s) :
    ∃ e st', getEarningsHistory mock now nowD st s = .ok (e, st') := by
  simp only [getEarningsHistory, hs]
  rcases hg : (getCache now ("earn:" ++ s) st).1 with _ | v
  · simp only [hg]; cases mock <;> exact ⟨_, _, rfl⟩
  · cases v with
    | quote q => simp only [hg]; cases mock <;> exact ⟨_, _, rfl⟩
    | hist h => simp only [hg]; cases mock <;> exact ⟨_, _, rfl⟩
    | earn e => simp only [hg]; exact ⟨e, _, rfl⟩
    | news n => simp only [hg]; cases mock <;> exact ⟨_, _, rfl⟩

-- Pagination normalization

lemma normPerPage_bounds (p : Option ℚ) : 1 ≤ normPerPage p ∧ normPerPage p ≤ 50 := by
  unfold normPerPage clamp
  exact ⟨le_max_left 1 _, max_le (by norm_num) (min_le_left 50 _)⟩

/-- Whether a raw symbol fails the validation of `sanitizeSymbol` (empty, or
its uppercased form contains a character outside `[A-Z0-9.\-]`). -/
def symbolInvalid (raw : String) : Bool :=
  raw == "" || !((jsToUpper raw).data.all validSymChar)

lemma sanitizeSymbol_error_of_invalid (raw : String) (h : symbolInvalid raw = true) :
    ∃ e, sanitizeSymbol raw = .error e := by
  unfold sanitizeSymbol
  by_cases h0 : raw = ""
  · exact ⟨_, by rw [if_pos h0]⟩
  · rw [if_neg h0]
    have hall : ¬ (jsToUpper raw).data.all validSymChar = true := by
      simp only [symbolInvalid, Bool.or_eq_true, beq_iff_eq, Bool.not_eq_true'] at h
      rcases h with h | h
      · exact absurd h h0
      · simp [h]
    rw [if_neg hall]
    exact ⟨_, rfl⟩

/-- Claim C8 (amended) — every malformed ASCII symbol (empty, or not matching
`^[A-Z0-9.\-]+$` after uppercasing) is rejected by `getQuote`,
`getPriceHistory`, `getEarningsHistory` and `getNews` before any cache,
generator or provider work (the formal statement is restricted to ASCII
inputs, where the modelled per-character uppercasing agrees with the
ECMAScript Unicode full case mapping; a non-ASCII input such as `"ß"`
uppercases to `"SS"` in JavaScript and is accepted by the code);
`getEarnings`, however, does not reject out-of-range pagination: every
successful result carries the normalized values (`page ≤ 0` or missing
becomes 1 via `normPage`; `perPage` is clamped into `[1, 50]` via
`normPerPage`). -/
theorem spec_c8_input_validation :
    (∀ raw : String, isAsciiString raw = true → symbolInvalid raw = true →
      ∀ (mock : Bool) (now : ℤ) (nowD : DateOnly) (st : Cache) (range : PriceRange)
        (limit : ℕ),
        (∃ e, getQuote mock now st raw = .error e) ∧
        (∃ e, getPriceHistory mock now st raw range = .error e) ∧
        (∃ e, getEarningsHistory mock now nowD st raw = .error e) ∧
        (∃ e, getNews mock now st raw limit = .error e)) ∧
    (∀ (mock : Bool) (now : ℤ) (q : EarningsQuery) (r : EarningsResult),
      getEarnings mock now q = .ok r →
      r.page = normPage q.page ∧ r.perPage = normPerPage q.perPage ∧
      1 ≤ r.perPage ∧ r.perPage ≤ 50) := by
  constructor
  · intro raw _hascii hinv mock now nowD st range limit
    obtain ⟨e, he⟩ := sanitizeSymbol_error_of_invalid raw hinv
    exact ⟨⟨e, by simp [getQuote, he]⟩, ⟨e, by simp [getPriceHistory, he]⟩,
      ⟨e, by simp [getEarningsHistory, he]⟩, ⟨e, by simp [getNews, he]⟩⟩
  · intro mock now q r h
    unfold getEarnings at h
    dsimp only at h
    split at h
    case _ sd ed =>
      split_ifs at h with hlt hmock
      all_goals
        first
          | exact Except.noConfusion h
          | (rw [← Except.ok.inj h]; exact ⟨rfl, rfl, normPerPage_bounds q.perPage⟩)
    case _ =>
      exact Except.noConfusion h

/-- Claim C8 witness: rejection of the malformed ASCII symbol `"a$"` by all
four getters, and the pagination-normalization conclusion at a concrete
`getEarnings` call with `page = 0`, `perPage = 1000`. -/
theorem spec_c8_input_validation_witness :
    ((∃ e, getQuote true 0 ([] : Cache) "a$" = .error e) ∧
      (∃ e, getPriceHistory true 0 ([] : Cache) "a$" PriceRange.oneD = .error e) ∧
      (∃ e, getEarningsHistory true 0 ⟨2025, 9, 12⟩ ([] : Cache) "a$" = .error e) ∧
      (∃ e, getNews true 0 ([] : Cache) "a$" 5 = .error e)) ∧
    ((⟨0, 1, 50, [], 77⟩ : EarningsResult).page =
        normPage (⟨"2024-01-01", "2024-01-02", none, some 0, some 1000⟩ : EarningsQuery).page ∧
      (⟨0, 1, 50, [], 77⟩ : EarningsResult).perPage =
        normPerPage (⟨"2024-01-01", "2024-01-02", none, some 0, some 1000⟩ : EarningsQuery).perPage ∧
      1 ≤ (⟨0, 1, 50, [], 77⟩ : EarningsResult).perPage ∧
      (⟨0, 1, 50, [], 77⟩ : EarningsResult).perPage ≤ 50) :=
  ⟨spec_c8_input_validation.1 "a$" (by decide) (by decide) true 0 ⟨2025, 9, 12⟩ []
     PriceRange.oneD 5,
   spec_c8_input_validation.2 false 77 ⟨"2024-01-01", "2024-01-02", none, some 0, some 1000⟩
     ⟨0, 1, 50, [], 77⟩ rfl⟩

/-- Claim C8 counterexample — a request with `page = 0` and `perPage = 1000`
(both out of range per the claim) is not rejected by `getEarnings`: it is
answered successfully, with the values normalized to `page = 1`,
`perPage = 50`. -/
theorem spec_c8_counterexample :
    getEarnings false 77 ⟨"2024-01-01", "2024-01-02", none, some 0, some 1000⟩ =
      .ok ⟨0, 1, 50, [], 77⟩ ∧
    ∀ e, getEarnings false 77 ⟨"2024-01-01", "2024-01-02", none, some 0, some 1000⟩ ≠
      .error e := by
  refine ⟨rfl, ?_⟩
  intro e he
  have h1 : getEarnings false 77 ⟨"2024-01-01", "2024-01-02", none, some 0, some 1000⟩ =
      .ok ⟨0, 1, 50, [], 77⟩ := rfl
  rw [h1] at he
  exact Except.noConfusion he

/-- Claim C9 (amended) — for every valid symbol, `getStockOverview` composes
the quote, the range history and the earnings history obtained from their
getters over the shared cache, but returns an empty news list (news is
loaded separately, not as part of the overview). -/
theorem spec_c9_overview_composition (mock : Bool) (now : ℤ) (nowD : DateOnly)
    (st : Cache) (raw s : String) (range : PriceRange)
    (h1 : sanitizeSymbol raw = .ok s) :
    ∃ q st1 hist st2 earn st3,
      getQuote mock now st s = .ok (q, st1) ∧
      getPriceHistory mock now st1 s range = .ok (hist, st2) ∧
      getEarningsHistory mock now nowD st2 s = .ok (earn, st3) ∧
      getStockOverview mock now nowD st raw range =
        .ok ({ quote := q, history := hist, earnings := earn, news := [] }, st3) := by
  have hs := sanitize_idem raw s h1
  obtain ⟨q, st1, hq⟩ := getQuote_total mock now st s hs
  obtain ⟨hist, st2, hh⟩ := getPriceHistory_total mock now st1 s range hs
  obtain ⟨earn, st3, he⟩ := getEarningsHistory_total mock now nowD st2 s hs
  exact ⟨q, st1, hist, st2, earn, st3, hq, hh, he, by
    simp only [getStockOverview, h1, hq, hh, he]⟩

/-- Claim C9 witness: the amended statement at symbol `"AAPL"`, range 1M,
time 0 and the empty cache. -/
theorem spec_c9_overview_composition_witness :
    ∃ q st1 hist st2 earn st3,
      getQuote true 0 ([] : Cache) "AAPL" = .ok (q, st1) ∧
      getPriceHistory true 0 st1 "AAPL" PriceRange.oneM = .ok (hist, st2) ∧
      getEarningsHistory true 0 ⟨2025, 9, 12⟩ st2 "AAPL" = .ok (earn, st3) ∧
      getStockOverview true 0 ⟨2025, 9, 12⟩ ([] : Cache) "AAPL" PriceRange.oneM =
        .ok ({ quote := q, history := hist, earnings := earn, news := [] }, st3) :=
  spec_c9_overview_composition true 0 ⟨2025, 9, 12⟩ [] "AAPL" "AAPL" PriceRange.oneM rfl

/-- Claim C9 counterexample — the overview's news field is empty, while
`getNews` for the same symbol returns 5 items: the overview is not a
composition of all four per-symbol entities. -/
theorem spec_c9_counterexample :
    (getStockOverview true 0 ⟨2025, 9, 12⟩ ([] : Cache) "AAPL" PriceRange.oneM).map
      (fun p => p.1.news) = .ok ([] : List NewsItem) ∧
    (getNews true 0 ([] : Cache) "AAPL" 5).map (fun p => p.1.length) = .ok 5 ∧
    (5 : ℕ) ≠ 0 :=
  ⟨rfl, rfl, by decide⟩

/-- Claim C10 — with the earnings mock flag off and a valid query (parseable
start/end with start ≤ end), `getEarnings` returns the placeholder result:
total 0, no items, the normalized page/perPage values and the current
timestamp — touching no provider and no generator, and never throwing. -/
theorem spec_c10_earnings_mock_off (now : ℤ) (q : EarningsQuery) (sd ed : DateOnly)
    (h1 : parseISODate q.start = some sd) (h2 : parseISODate q.endDate = some ed)
    (h3 : dateKey sd ≤ dateKey ed) :
    getEarnings false now q =
      .ok { total := 0, page := normPage q.page, perPage := normPerPage q.perPage,
            items := [], generatedAt := now } := by
  unfold getEarnings
  rw [h1, h2]
  dsimp only
  rw [if_neg (not_lt.2 h3)]
  rfl

/-- Claim C10 witness: the statement at a concrete valid query. -/
theorem spec_c10_earnings_mock_off_witness :
    getEarnings false 77 ⟨"2024-01-01", "2024-03-05", none, none, none⟩ =
      .ok { total := 0,
            page := normPage (⟨"2024-01-01", "2024-03-05", none, none, none⟩ : EarningsQuery).page,
            perPage := normPerPage (⟨"2024-01-01", "2024-03-05", none, none, none⟩ : EarningsQuery).perPage,
            items := [], generatedAt := 77 } :=
  spec_c10_earnings_mock_off 77 ⟨"2024-01-01", "2024-03-05", none, none, none⟩
    ⟨2024, 0, 1⟩ ⟨2024, 2, 5⟩ rfl rfl (by decide)

end FinApp
